import Mathlib

/-!
Verification of the raw/edit reconciliation and undo mechanism of the
model-config editor.  JSON values are modelled by `JVal`; objects are
association lists in insertion order, as JavaScript objects behave after
`JSON.parse` (which never yields duplicate keys).
-/

/-- A JSON value.  `obj` keeps fields in insertion order. -/
inductive JVal where
  | null : JVal
  | bool : Bool → JVal
  | num : Int → JVal
  | str : String → JVal
  | arr : List JVal → JVal
  | obj : List (String × JVal) → JVal
deriving Repr

mutual

/-- Structural equality test on JSON values. -/
def JVal.beq : JVal → JVal → Bool
  | .null, .null => true
  | .bool a, .bool b => a == b
  | .num a, .num b => a == b
  | .str a, .str b => a == b
  | .arr xs, .arr ys => JVal.beqArr xs ys
  | .obj xs, .obj ys => JVal.beqObj xs ys
  | _, _ => false

/-- Structural equality test on JSON arrays. -/
def JVal.beqArr : List JVal → List JVal → Bool
  | [], [] => true
  | x :: xs, y :: ys => JVal.beq x y && JVal.beqArr xs ys
  | _, _ => false

/-- Structural equality test on JSON object field lists. -/
def JVal.beqObj : List (String × JVal) → List (String × JVal) → Bool
  | [], [] => true
  | (k1, v1) :: xs, (k2, v2) :: ys => k1 == k2 && JVal.beq v1 v2 && JVal.beqObj xs ys
  | _, _ => false

end

mutual

theorem JVal.beq_iff : ∀ a b : JVal, JVal.beq a b = true ↔ a = b
  | .null, .null => by simp [JVal.beq]
  | .bool a, .bool b => by simp [JVal.beq]
  | .num a, .num b => by simp [JVal.beq]
  | .str a, .str b => by simp [JVal.beq]
  | .arr xs, .arr ys => by simp [JVal.beq, JVal.beqArr_iff xs ys]
  | .obj xs, .obj ys => by simp [JVal.beq, JVal.beqObj_iff xs ys]
  | .null, .bool _ | .null, .num _ | .null, .str _ | .null, .arr _ | .null, .obj _
  | .bool _, .null | .bool _, .num _ | .bool _, .str _ | .bool _, .arr _ | .bool _, .obj _
  | .num _, .null | .num _, .bool _ | .num _, .str _ | .num _, .arr _ | .num _, .obj _
  | .str _, .null | .str _, .bool _ | .str _, .num _ | .str _, .arr _ | .str _, .obj _
  | .arr _, .null | .arr _, .bool _ | .arr _, .num _ | .arr _, .str _ | .arr _, .obj _
  | .obj _, .null | .obj _, .bool _ | .obj _, .num _ | .obj _, .str _ | .obj _, .arr _ =>
      by simp [JVal.beq]

theorem JVal.beqArr_iff : ∀ xs ys : List JVal, JVal.beqArr xs ys = true ↔ xs = ys
  | [], [] => by simp [JVal.beqArr]
  | x :: xs, y :: ys => by
      simp [JVal.beqArr, JVal.beq_iff x y, JVal.beqArr_iff xs ys]
  | [], _ :: _ => by simp [JVal.beqArr]
  | _ :: _, [] => by simp [JVal.beqArr]

theorem JVal.beqObj_iff :
    ∀ xs ys : List (String × JVal), JVal.beqObj xs ys = true ↔ xs = ys
  | [], [] => by simp [JVal.beqObj]
  | (k1, v1) :: xs, (k2, v2) :: ys => by
      simp [JVal.beqObj, JVal.beq_iff v1 v2, JVal.beqObj_iff xs ys]
  | [], _ :: _ => by simp [JVal.beqObj]
  | _ :: _, [] => by simp [JVal.beqObj]

end

instance : DecidableEq JVal := fun a b =>
  decidable_of_iff (JVal.beq a b = true) (JVal.beq_iff a b)

namespace JVal

/-- First-occurrence lookup in an object's field list. -/
def getK : List (String × JVal) → String → Option JVal
  | [], _ => none
  | (k', v) :: rest, k => if k = k' then some v else getK rest k

/-- JavaScript property assignment `o[k] = v`: replace the value of an
existing key in place, otherwise append the key at the end. -/
def setKey : List (String × JVal) → String → JVal → List (String × JVal)
  | [], k, v => [(k, v)]
  | (k', v') :: rest, k, v =>
      if k = k' then (k', v) :: rest else (k', v') :: setKey rest k v

/-- The object-spread merge `{...a, ...b}`: entries of `b` assigned onto a
copy of `a`, later entries winning. -/
def mergeObj (a b : List (String × JVal)) : List (String × JVal) :=
  b.foldl (fun acc kv => setKey acc kv.1 kv.2) a

/-- Property access `v[k]` for a named (non-index) key: `undefined` is
`none`; only objects carry named properties. -/
def jget : JVal → String → Option JVal
  | .obj o, k => getK o k
  | _, _ => none

/-- Strip a nullish value to `none` (`undefined` and `null` behave alike
under `??` and `?.`). -/
def nls : Option JVal → Option JVal
  | some .null => none
  | none => none
  | some v => some v

/-- The nullish-coalescing operator `x ?? d`. -/
def jqq (x : Option JVal) (d : JVal) : JVal :=
  (nls x).getD d

/-- The optionally-chained access `m[k1]?.[k2]`. -/
def jgetChain (m : JVal) (k1 k2 : String) : Option JVal :=
  match nls (jget m k1) with
  | none => none
  | some v => jget v k2

/-- JavaScript falsiness of a defined value. -/
def jsFalsy : JVal → Bool
  | .null => true
  | .bool b => !b
  | .num n => n == 0
  | .str s => s.isEmpty
  | .arr _ => false
  | .obj _ => false

/-- The enumeration `{...v}` of a single value as object fields: objects
spread to themselves, arrays and strings to index-keyed entries, and
primitives to nothing. -/
def jSpreadV : JVal → List (String × JVal)
  | .obj o => o
  | .arr xs => (List.range xs.length).zip xs |>.map fun p => (toString p.1, p.2)
  | .str s => (List.range s.length).zip (s.toList.map fun c => JVal.str (String.singleton c))
      |>.map fun p => (toString p.1, p.2)
  | _ => []

/-- `{...v}` where `v` may be `undefined` (spreading `undefined` or `null`
contributes nothing). -/
def jSpreadO : Option JVal → List (String × JVal)
  | none => []
  | some .null => []
  | some v => jSpreadV v

/-- `Object.keys(v).length` for the values this program applies it to. -/
def jsKeysLen : JVal → Nat
  | .obj o => o.length
  | .arr xs => xs.length
  | .str s => s.length
  | _ => 0

/-- Whether `v.length === 0` holds (`undefined === 0` is false, so values
without a `length` property yield `false`). -/
def jsLenIsZero : JVal → Bool
  | .arr xs => xs.isEmpty
  | .str s => s.isEmpty
  | _ => false

end JVal

mutual

/-- String conversion as performed inside a template literal. -/
def JVal.jsToString : JVal → String
  | .str s => s
  | .num n => toString n
  | .bool b => if b then "true" else "false"
  | .null => "null"
  | .arr xs => String.intercalate "," (JVal.jsToStringL xs)
  | .obj _ => "[object Object]"

/-- Elementwise template-literal conversion of an array's members. -/
def JVal.jsToStringL : List JVal → List String
  | [] => []
  | x :: xs => JVal.jsToString x :: JVal.jsToStringL xs

end

open JVal in
/-- The editable nested `meta` object of a normalized record, with the five
fields the editor knows (`normalizeModel` always materialises all five). -/
structure MetaCfg where
  profile_image_url : JVal
  description : JVal
  capabilities : JVal
  suggestion_prompts : JVal
  tags : JVal
deriving Repr, DecidableEq

/-- A normalized record: the shape `normalizeModel` produces, with one field
per editor-known key.  Field values stay arbitrary JSON values, since the
program copies them through untyped. -/
structure ModelConfig where
  id : JVal
  name : JVal
  owned_by : JVal
  openai : JVal
  urlIdx : JVal
  connection_type : JVal
  user_id : JVal
  base_model_id : JVal
  params : JVal
  meta : MetaCfg
  access_control : JVal
  is_active : JVal
  updated_at : JVal
  created_at : JVal
deriving Repr, DecidableEq

/-- The keys of the normalized schema, in the insertion order of
`normalizeModel`'s result literal. -/
def knownKeys : List String :=
  ["id", "name", "owned_by", "openai", "urlIdx", "connection_type", "user_id",
   "base_model_id", "params", "meta", "access_control", "is_active",
   "updated_at", "created_at"]

/-- The keys of the normalized `meta` object, in insertion order. -/
def metaKeys : List String :=
  ["profile_image_url", "description", "capabilities", "suggestion_prompts", "tags"]

open JVal in
/-- A `MetaCfg` as the JSON object it denotes. -/
def MetaCfg.toObj (m : MetaCfg) : JVal :=
  .obj [("profile_image_url", m.profile_image_url), ("description", m.description),
        ("capabilities", m.capabilities), ("suggestion_prompts", m.suggestion_prompts),
        ("tags", m.tags)]

open JVal in
/-- A `ModelConfig` as the JSON object it denotes, fields in insertion order. -/
def ModelConfig.toObj (e : ModelConfig) : JVal :=
  .obj [("id", e.id), ("name", e.name), ("owned_by", e.owned_by),
        ("openai", e.openai), ("urlIdx", e.urlIdx),
        ("connection_type", e.connection_type), ("user_id", e.user_id),
        ("base_model_id", e.base_model_id), ("params", e.params),
        ("meta", e.meta.toObj), ("access_control", e.access_control),
        ("is_active", e.is_active), ("updated_at", e.updated_at),
        ("created_at", e.created_at)]

open JVal in
/-- `normalizeModel` from the page module: permissive defaulting of a partial
raw record.  `now` is the value of `Math.floor(Date.now() / 1000)` at the
moment of the call. -/
def normalizeModel (now : Int) (m : JVal) : ModelConfig :=
  { id := jqq (jget m "id") (.str "")
    name := jqq (jget m "name") (jqq (jget m "id") (.str "Unknown"))
    owned_by := jqq (jget m "owned_by") (.str "openai")
    openai := jqq (jget m "openai") (.obj [("id", jqq (jget m "id") (.str ""))])
    urlIdx := jqq (jget m "urlIdx") (.num 0)
    connection_type := jqq (jget m "connection_type") (.str "external")
    user_id := jqq (jget m "user_id") (.str "")
    base_model_id := jqq (jget m "base_model_id") .null
    params := jqq (jget m "params") (.obj [])
    meta := { profile_image_url := jqq (jgetChain m "meta" "profile_image_url") (.str "")
              description := jqq (jgetChain m "meta" "description") .null
              capabilities := jqq (jgetChain m "meta" "capabilities") (.obj [])
              suggestion_prompts := jqq (jgetChain m "meta" "suggestion_prompts") .null
              tags := jqq (jgetChain m "meta" "tags") (.arr []) }
    access_control := jqq (jget m "access_control") .null
    is_active := jqq (jget m "is_active") (.bool true)
    updated_at := jqq (jget m "updated_at") (.num now)
    created_at := jqq (jget m "created_at") (.num now) }

open JVal in
/-- The overwrite test of `mergeToRaw`'s meta loop: the edited value is
defined and is none of `""`, `null`, `[]`, `{}`. -/
def jsNonEmpty : JVal → Bool
  | .str s => !s.isEmpty
  | .null => false
  | .arr xs => !xs.isEmpty
  | .obj o => !o.isEmpty
  | _ => true

open JVal in
/-- `rawVal?.[mk] !== undefined` for the raw record's `meta` value. -/
def rawHasMeta (rawMeta : Option JVal) (mk : String) : Bool :=
  match nls rawMeta with
  | none => false
  | some v => (jget v mk).isSome

open JVal in
/-- The `continue` test of `mergeToRaw`'s meta branch: raw has no `meta` and
the edited meta carries nothing worth writing. -/
def metaSkip (rawMeta : Option JVal) (em : MetaCfg) : Bool :=
  rawMeta.isNone && jsFalsy em.profile_image_url && jsFalsy em.description &&
    (jsFalsy em.capabilities || jsKeysLen em.capabilities == 0) &&
    (jsFalsy em.tags || jsLenIsZero em.tags)

open JVal in
/-- One iteration of `mergeToRaw`'s meta loop for key `mk` with edited value
`ev`: overwrite when non-empty, overwrite with the cleared value when the raw
meta had the key, otherwise leave the copy untouched. -/
def mergeMetaStep (rawMeta : Option JVal) (acc : List (String × JVal))
    (mk : String) (ev : JVal) : List (String × JVal) :=
  if jsNonEmpty ev then setKey acc mk ev
  else if rawHasMeta rawMeta mk then setKey acc mk ev
  else acc

open JVal in
/-- The meta branch of `mergeToRaw`: `{...rawVal}` updated by the loop over
the five edited meta keys in insertion order. -/
def mergeMeta (rawMeta : Option JVal) (em : MetaCfg) : List (String × JVal) :=
  let acc := jSpreadO rawMeta
  let acc := mergeMetaStep rawMeta acc "profile_image_url" em.profile_image_url
  let acc := mergeMetaStep rawMeta acc "description" em.description
  let acc := mergeMetaStep rawMeta acc "capabilities" em.capabilities
  let acc := mergeMetaStep rawMeta acc "suggestion_prompts" em.suggestion_prompts
  let acc := mergeMetaStep rawMeta acc "tags" em.tags
  acc

open JVal in
/-- The params branch of `mergeToRaw`.  The source's final sweep deleting
entries whose value is `undefined` is the identity on JSON data and has no
counterpart here. -/
def mergeParams (rawParams : Option JVal) (edParams : JVal) : List (String × JVal) :=
  if rawParams.isNone && jsKeysLen edParams == 0 then []
  else mergeObj (jSpreadO rawParams) (jSpreadV edParams)

open JVal in
/-- `mergeToRaw` from the page module: reapply the edited record on top of a
copy of the raw record, key by key in the edited record's insertion order. -/
def mergeToRaw (raw : Option JVal) (edited : ModelConfig) : JVal :=
  match raw with
  | none => edited.toObj
  | some r =>
    if jsFalsy r then edited.toObj
    else
      let result := jSpreadV r
      let result := setKey result "id" edited.id
      let result := setKey result "name" edited.name
      let result := setKey result "owned_by" edited.owned_by
      let result := setKey result "openai"
        (.obj (mergeObj (jSpreadO (jget r "openai")) (jSpreadV edited.openai)))
      let result := setKey result "urlIdx" edited.urlIdx
      let result := setKey result "connection_type" edited.connection_type
      let result := setKey result "user_id" edited.user_id
      let result := setKey result "base_model_id" edited.base_model_id
      let result := setKey result "params" (.obj (mergeParams (jget r "params") edited.params))
      let result :=
        if metaSkip (jget r "meta") edited.meta then result
        else setKey result "meta" (.obj (mergeMeta (jget r "meta") edited.meta))
      let result := setKey result "access_control" edited.access_control
      let result := setKey result "is_active" edited.is_active
      let result := setKey result "updated_at" edited.updated_at
      let result := setKey result "created_at" edited.created_at
      .obj result

/-- `MAX_UNDO` from the page module. -/
def MAX_UNDO : Nat := 50

/-- `pushUndo`: append a deep copy of the snapshot (the identity on pure
data) and evict the oldest entry when the bound is exceeded. -/
def pushUndo (snapshot : List ModelConfig) (stack : List (List ModelConfig)) :
    List (List ModelConfig) :=
  if (stack ++ [snapshot]).length > MAX_UNDO then (stack ++ [snapshot]).drop 1
  else stack ++ [snapshot]

/-- An operation on the undo stack: a `pushUndo` before a mutation, or the
pop performed by a successful undo. -/
inductive UndoOp where
  | push : List ModelConfig → UndoOp
  | pop : UndoOp

/-- Apply one stack operation (`pop` on an empty stack is the no-op the
guard in `handleUndo` enforces). -/
def applyOp (stack : List (List ModelConfig)) : UndoOp → List (List ModelConfig)
  | .push s => pushUndo s stack
  | .pop => stack.dropLast

/-- Apply a sequence of stack operations in order. -/
def applyOps (ops : List UndoOp) (stack : List (List ModelConfig)) :
    List (List ModelConfig) :=
  ops.foldl applyOp stack

/-- A run of consecutive pushes. -/
def pushMany (snaps : List (List ModelConfig)) (stack : List (List ModelConfig)) :
    List (List ModelConfig) :=
  snaps.foldl (fun acc s => pushUndo s acc) stack

/-- A toast notification. -/
inductive Toast where
  | success : String → Toast
  | error : String → Toast
  | info : String → Toast
deriving Repr, DecidableEq

/-- The page state the handlers read and write: the model list, the
selection, the unsaved flag, the pending delete target, the raw store
(`Map` insertion order preserved, keyed by each imported record's `id`,
which is `undefined` — `none` — when absent), and the undo stack. -/
structure EditorState where
  models : List ModelConfig
  selectedId : Option JVal
  hasUnsaved : Bool
  deleteTarget : Option JVal
  rawModels : List (Option JVal × JVal)
  undoStack : List (List ModelConfig)
deriving Repr, DecidableEq

/-- `Map.set`: overwrite an existing key in place, else append. -/
def mapSet (m : List (Option JVal × JVal)) (k : Option JVal) (v : JVal) :
    List (Option JVal × JVal) :=
  match m with
  | [] => [(k, v)]
  | (k', v') :: rest => if k = k' then (k, v) :: rest else (k', v') :: mapSet rest k v

/-- `Map.get`: first entry with the key, `undefined` otherwise. -/
def mapGet (m : List (Option JVal × JVal)) (k : Option JVal) : Option JVal :=
  match m with
  | [] => none
  | (k', v) :: rest => if k = k' then some v else mapGet rest k

open JVal in
/-- `handleImport` after the file has been read: `parsed` is the outcome of
`JSON.parse` on the file's text (`none` when parsing threw).  On failure the
catch block only raises the error toast; every state change sits after the
parse, so the state is returned untouched. -/
def handleImport (now : Int) (parsed : Option JVal) (st : EditorState) :
    EditorState × Toast :=
  match parsed with
  | none => (st, Toast.error "Invalid JSON file")
  | some data =>
    let arr : List JVal := match data with | .arr xs => xs | v => [v]
    let rawMap := arr.foldl (fun acc m => mapSet acc (jget m "id") m) []
    ({ models := arr.map (normalizeModel now),
       selectedId := none,
       hasUnsaved := false,
       deleteTarget := st.deleteTarget,
       rawModels := rawMap,
       undoStack := [] },
     Toast.success ("Loaded " ++ toString arr.length ++ " models"))

/-- `handleUndo`: restore and drop the most recent snapshot, or report that
there is nothing to undo. -/
def handleUndo (st : EditorState) : EditorState × Toast :=
  if st.undoStack.length = 0 then (st, Toast.info "Nothing to undo")
  else
    let prev := st.undoStack.getLastD []
    let stack := st.undoStack.dropLast
    ({ st with models := prev,
               undoStack := stack,
               hasUnsaved := if stack.length = 0 then false else st.hasUnsaved },
     Toast.success "Undone")

/-- `handleModelUpdate`: snapshot the previous list, then replace the record
with a matching `id`. -/
def handleModelUpdate (updated : ModelConfig) (st : EditorState) : EditorState :=
  { st with undoStack := pushUndo st.models st.undoStack,
            models := st.models.map fun m => if m.id = updated.id then updated else m,
            hasUnsaved := true }

open JVal in
/-- The fresh record literal of `handleAddModel`. -/
def newModel (now : Int) : ModelConfig :=
  let nid : JVal := .str ("new-model-" ++ toString now)
  { id := nid
    name := .str "New Model"
    owned_by := .str "openai"
    openai := .obj [("id", nid), ("name", nid), ("owned_by", .str "openai"),
                    ("openai", .obj [("id", nid)]), ("urlIdx", .num 0),
                    ("connection_type", .str "external")]
    urlIdx := .num 0
    connection_type := .str "external"
    user_id := .str ""
    base_model_id := .null
    params := .obj []
    meta := { profile_image_url := .str "", description := .str "",
              capabilities := .obj [], suggestion_prompts := .null, tags := .arr [] }
    access_control := .null
    is_active := .bool true
    updated_at := .num now
    created_at := .num now }

/-- `handleAddModel`: snapshot, prepend the fresh record, select it. -/
def handleAddModel (now : Int) (st : EditorState) : EditorState :=
  { st with undoStack := pushUndo st.models st.undoStack,
            models := newModel now :: st.models,
            selectedId := some (newModel now).id,
            hasUnsaved := true }

open JVal in
/-- `confirmDelete`: with a truthy delete target, snapshot and filter the
record out, clearing a matching selection. -/
def confirmDelete (st : EditorState) : EditorState :=
  match st.deleteTarget with
  | none => st
  | some t =>
    if jsFalsy t then st
    else
      { st with undoStack := pushUndo st.models st.undoStack,
                models := st.models.filter fun m => !(m.id = t : Bool),
                selectedId := if st.selectedId = some t then none else st.selectedId,
                deleteTarget := none,
                hasUnsaved := true }

open JVal in
/-- `handleDuplicateModel`: deep-copy the source record (the identity on
pure data), give it a derived id and name, and insert it right after the
source. -/
def handleDuplicateModel (targetId : JVal) (now : Int) (st : EditorState) :
    EditorState :=
  match st.models.find? (fun m => m.id = targetId) with
  | none => st
  | some source =>
    let dup : ModelConfig :=
      { source with
        id := .str (jsToString source.id ++ "-copy-" ++ toString now)
        name := .str (jsToString source.name ++ " (Copy)")
        created_at := .num now
        updated_at := .num now }
    let idx := st.models.findIdx fun m => m.id = targetId
    { st with undoStack := pushUndo st.models st.undoStack,
              models := st.models.take (idx + 1) ++ dup :: st.models.drop (idx + 1),
              selectedId := some dup.id,
              hasUnsaved := true }

/-- `handleExport`: the document written to the download — each current
record merged onto its stored raw counterpart.  The handler reads the state
and changes none of it. -/
def handleExport (st : EditorState) : List JVal :=
  st.models.map fun m => mergeToRaw (mapGet st.rawModels (some m.id)) m

namespace JVal

theorem getK_setKey_self (o : List (String × JVal)) (k : String) (v : JVal) :
    getK (setKey o k v) k = some v := by
  induction o with
  | nil => simp [setKey, getK]
  | cons kv rest ih =>
      by_cases h : k = kv.1
      · simp [setKey, getK, h]
      · simp [setKey, getK, h, ih]

theorem getK_setKey_ne (o : List (String × JVal)) {k f : String} (v : JVal)
    (h : f ≠ k) : getK (setKey o k v) f = getK o f := by
  induction o with
  | nil => simp [setKey, getK, h]
  | cons kv rest ih =>
      by_cases hk : k = kv.1
      · subst hk; simp [setKey, getK, h]
      · by_cases hf : f = kv.1
        · simp [setKey, getK, hk, hf]
        · simp [setKey, getK, hk, hf, ih]

theorem setKey_eq_self {o : List (String × JVal)} {k : String} {v : JVal}
    (h : getK o k = some v) : setKey o k v = o := by
  induction o with
  | nil => simp [getK] at h
  | cons kv rest ih =>
      rcases kv with ⟨k', v'⟩
      by_cases hk : k = k'
      · subst hk
        simp [getK] at h
        simp [setKey, h]
      · simp [getK, hk] at h
        simp [setKey, hk, ih h]

theorem getK_append (a b : List (String × JVal)) (f : String) :
    getK (a ++ b) f = (getK a f).or (getK b f) := by
  induction a with
  | nil => simp [getK]
  | cons kv rest ih =>
      by_cases h : f = kv.1
      · simp [getK, h]
      · simp [getK, h, ih]

theorem getK_mergeObj (a b : List (String × JVal)) (f : String) :
    getK (mergeObj a b) f = (getK b.reverse f).or (getK a f) := by
  induction b generalizing a with
  | nil => simp [mergeObj, getK]
  | cons kv rest ih =>
      have step : mergeObj a (kv :: rest) = mergeObj (setKey a kv.1 kv.2) rest := by
        simp [mergeObj, List.foldl_cons]
      rw [step, ih]
      simp only [List.reverse_cons, getK_append]
      by_cases h : f = kv.1
      · subst h
        simp [getK, getK_setKey_self]
        cases getK rest.reverse kv.1 <;> simp
      · simp [getK, h, getK_setKey_ne _ _ h]

theorem mergeObj_eq_self {a : List (String × JVal)} {b : List (String × JVal)}
    (h : ∀ kv ∈ b, getK a kv.1 = some kv.2) : mergeObj a b = a := by
  induction b with
  | nil => simp [mergeObj]
  | cons kv rest ih =>
      have step : mergeObj a (kv :: rest) = mergeObj (setKey a kv.1 kv.2) rest := by
        simp [mergeObj, List.foldl_cons]
      rw [step, setKey_eq_self (h kv (by simp))]
      exact ih fun kv' hkv' => h kv' (by simp [hkv'])

theorem getK_of_nodup_mem {a : List (String × JVal)} {kv : String × JVal}
    (nd : (a.map Prod.fst).Nodup) (h : kv ∈ a) : getK a kv.1 = some kv.2 := by
  induction a with
  | nil => simp at h
  | cons hd rest ih =>
      simp only [List.map_cons, List.nodup_cons] at nd
      rcases List.mem_cons.mp h with h1 | h1
      · subst h1; simp [getK]
      · have hne : kv.1 ≠ hd.1 := by
          intro he
          exact nd.1 (he ▸ List.mem_map_of_mem Prod.fst h1)
        simp [getK, hne, ih nd.2 h1]

theorem mergeObj_self {a : List (String × JVal)} (nd : (a.map Prod.fst).Nodup) :
    mergeObj a a = a :=
  mergeObj_eq_self fun _ hkv => getK_of_nodup_mem nd hkv

theorem jqq_some_ne_null {v : JVal} (h : v ≠ .null) (d : JVal) :
    jqq (some v) d = v := by
  cases v <;> simp_all [jqq, nls]

theorem jqq_some_null_default (v : JVal) : jqq (some v) .null = v := by
  cases v <;> simp [jqq, nls]

theorem jqq_none (d : JVal) : jqq none d = d := rfl

end JVal

/-- C4: for every edited normalized record, merging with an absent original
raw record returns the edited record itself, unchanged. -/
theorem c4_merge_absent_raw_returns_edited (e : ModelConfig) :
    mergeToRaw none e = e.toObj := rfl

/-- C7: importing a file whose content is not valid JSON raises the
"Invalid JSON file" error toast and returns the editor state — model list,
raw store, undo stack and selection — exactly as it was. -/
theorem c7_malformed_import_leaves_state_unchanged (now : Int) (st : EditorState) :
    handleImport now none st = (st, Toast.error "Invalid JSON file") := rfl

/-- C8: undo on a non-empty stack removes the most recently pushed snapshot
and installs it as the model list; undo on an empty stack returns the state
unchanged and only raises the "Nothing to undo" toast. -/
theorem c8_undo_pops_or_reports_empty (st : EditorState) :
    (st.undoStack = [] → handleUndo st = (st, Toast.info "Nothing to undo")) ∧
    (st.undoStack ≠ [] →
       (handleUndo st).1.models = st.undoStack.getLastD [] ∧
       (handleUndo st).1.undoStack = st.undoStack.dropLast ∧
       (handleUndo st).2 = Toast.success "Undone") := by
  constructor
  · intro h
    simp [handleUndo, h]
  · intro h
    have hl : ¬ st.undoStack.length = 0 := by simpa using h
    simp [handleUndo, hl]

/-- Witness for C8 at one empty and one single-snapshot state. -/
theorem c8_undo_pops_or_reports_empty_witness :
    (handleUndo { models := [], selectedId := none, hasUnsaved := false,
                  deleteTarget := none, rawModels := [], undoStack := [] } =
       ({ models := [], selectedId := none, hasUnsaved := false,
          deleteTarget := none, rawModels := [], undoStack := [] },
        Toast.info "Nothing to undo")) ∧
    ((handleUndo { models := [], selectedId := none, hasUnsaved := true,
                   deleteTarget := none, rawModels := [],
                   undoStack := [[newModel 3]] }).1.models = [newModel 3]) :=
  ⟨(c8_undo_pops_or_reports_empty _).1 rfl,
   ((c8_undo_pops_or_reports_empty _).2 (by simp)).1.trans (by simp)⟩

/-- C9: no handler between imports changes the raw store — updating, adding,
deleting, duplicating and undoing all return a state with `rawModels` equal
to the input's, and `handleExport` only reads the state, so every stored raw
record stays the value captured at import time (`mergeToRaw` builds its
output from copies and cannot alter the stored value). -/
theorem c9_raw_store_never_mutated (u : ModelConfig) (tid : JVal) (now : Int)
    (st : EditorState) :
    (handleModelUpdate u st).rawModels = st.rawModels ∧
    (handleAddModel now st).rawModels = st.rawModels ∧
    (confirmDelete st).rawModels = st.rawModels ∧
    (handleDuplicateModel tid now st).rawModels = st.rawModels ∧
    (handleUndo st).1.rawModels = st.rawModels ∧
    handleExport st = st.models.map (fun m => mergeToRaw (mapGet st.rawModels (some m.id)) m) := by
  refine ⟨rfl, rfl, ?_, ?_, ?_, rfl⟩
  · unfold confirmDelete
    cases st.deleteTarget with
    | none => rfl
    | some t => dsimp only; split <;> rfl
  · unfold handleDuplicateModel
    cases st.models.find? (fun m => m.id = tid) with
    | none => rfl
    | some s => rfl
  · unfold handleUndo
    split <;> rfl

theorem pushUndo_length_le {st : List (List ModelConfig)} (s : List ModelConfig)
    (h : st.length ≤ MAX_UNDO) : (pushUndo s st).length ≤ MAX_UNDO := by
  have h50 : MAX_UNDO = 50 := rfl
  unfold pushUndo
  split
  all_goals simp only [List.length_drop, List.length_append, List.length_cons,
    List.length_nil, gt_iff_lt] at *
  all_goals omega

theorem applyOp_length_le {st : List (List ModelConfig)} (op : UndoOp)
    (h : st.length ≤ MAX_UNDO) : (applyOp st op).length ≤ MAX_UNDO := by
  cases op with
  | push s => exact pushUndo_length_le s h
  | pop =>
      simp only [applyOp, List.length_dropLast]
      omega

theorem applyOps_length_le : ∀ (ops : List UndoOp) (st : List (List ModelConfig)),
    st.length ≤ MAX_UNDO → (applyOps ops st).length ≤ MAX_UNDO := by
  intro ops
  induction ops with
  | nil => intro st h; simpa [applyOps] using h
  | cons op ops ih =>
      intro st h
      simp only [applyOps, List.foldl_cons]
      exact ih _ (applyOp_length_le op h)

theorem pushMany_below_cap : ∀ (L : List (List ModelConfig)) (st : List (List ModelConfig)),
    st.length + L.length ≤ MAX_UNDO → pushMany L st = st ++ L := by
  intro L
  induction L with
  | nil => intro st _; simp [pushMany]
  | cons s L ih =>
      intro st h
      have h50 : MAX_UNDO = 50 := rfl
      simp only [List.length_cons] at h
      have hp : pushUndo s st = st ++ [s] := by
        unfold pushUndo
        rw [if_neg]
        simp only [List.length_append, List.length_cons, List.length_nil, gt_iff_lt]
        omega
      have htail : pushMany L (st ++ [s]) = (st ++ [s]) ++ L := by
        refine ih (st ++ [s]) ?_
        simp only [List.length_append, List.length_cons, List.length_nil]
        omega
      calc pushMany (s :: L) st = pushMany L (pushUndo s st) := rfl
        _ = (st ++ [s]) ++ L := by rw [hp, htail]
        _ = st ++ s :: L := by simp

theorem pushMany_at_cap : ∀ (L : List (List ModelConfig)) (st : List (List ModelConfig)),
    st.length = MAX_UNDO →
    pushMany L st = (st ++ L).drop (st.length + L.length - MAX_UNDO) := by
  intro L
  induction L with
  | nil => intro st h; simp [pushMany, h]
  | cons s L ih =>
      intro st h
      cases st with
      | nil => simp [MAX_UNDO] at h
      | cons a st' =>
          have h50 : MAX_UNDO = 50 := rfl
          simp only [List.length_cons] at h
          have hp : pushUndo s (a :: st') = st' ++ [s] := by
            unfold pushUndo
            rw [if_pos]
            · simp
            · simp only [List.length_append, List.length_cons, List.length_nil, gt_iff_lt]
              omega
          have hcap : (st' ++ [s]).length = MAX_UNDO := by
            simp only [List.length_append, List.length_cons, List.length_nil]
            omega
          have e1 : MAX_UNDO + L.length - MAX_UNDO = L.length := by omega
          have e2 : (a :: st').length + (s :: L).length - MAX_UNDO = L.length + 1 := by
            simp only [List.length_cons]
            omega
          calc pushMany (s :: L) (a :: st')
              = pushMany L (pushUndo s (a :: st')) := rfl
            _ = pushMany L (st' ++ [s]) := by rw [hp]
            _ = ((st' ++ [s]) ++ L).drop ((st' ++ [s]).length + L.length - MAX_UNDO) :=
                ih _ hcap
            _ = ((a :: st') ++ s :: L).drop ((a :: st').length + (s :: L).length - MAX_UNDO) := by
                rw [hcap, e1, e2]
                have hl : (a :: st') ++ s :: L = a :: ((st' ++ [s]) ++ L) := by simp
                rw [hl, List.drop_succ_cons]

/-- C3: under any sequence of pushes and pops the undo stack never exceeds
`MAX_UNDO = 50` snapshots, and a run of more than 50 consecutive pushes from
any in-bound stack leaves exactly the 50 most recently pushed snapshots, in
push order, the older ones evicted. -/
theorem c3_undo_stack_bounded :
    (∀ ops : List UndoOp, (applyOps ops []).length ≤ MAX_UNDO) ∧
    (∀ (st L : List (List ModelConfig)), st.length ≤ MAX_UNDO →
       MAX_UNDO < L.length → pushMany L st = L.drop (L.length - MAX_UNDO)) := by
  constructor
  · intro ops
    exact applyOps_length_le ops [] (by simp)
  · intro st L hst hL
    have h50 : MAX_UNDO = 50 := rfl
    have hsplit : L = L.take (MAX_UNDO - st.length) ++ L.drop (MAX_UNDO - st.length) :=
      (List.take_append_drop _ L).symm
    have htake : (L.take (MAX_UNDO - st.length)).length = MAX_UNDO - st.length := by
      rw [List.length_take]
      omega
    have hstep1 : pushMany (L.take (MAX_UNDO - st.length)) st =
        st ++ L.take (MAX_UNDO - st.length) := by
      refine pushMany_below_cap _ st ?_
      omega
    have hcap : (st ++ L.take (MAX_UNDO - st.length)).length = MAX_UNDO := by
      simp only [List.length_append]
      omega
    have hfold : pushMany L st =
        pushMany (L.drop (MAX_UNDO - st.length)) (pushMany (L.take (MAX_UNDO - st.length)) st) := by
      unfold pushMany
      conv_lhs => rw [hsplit]
      rw [List.foldl_append]
    rw [hfold, hstep1, pushMany_at_cap _ _ hcap]
    have hlens : (L.drop (MAX_UNDO - st.length)).length = L.length - (MAX_UNDO - st.length) := by
      simp [List.length_drop]
    rw [hcap, hlens]
    have hassoc : st ++ L.take (MAX_UNDO - st.length) ++ L.drop (MAX_UNDO - st.length) =
        st ++ L := by
      rw [List.append_assoc, List.take_append_drop]
    rw [hassoc]
    have hidx : MAX_UNDO + (L.length - (MAX_UNDO - st.length)) - MAX_UNDO =
        st.length + (L.length - MAX_UNDO) := by omega
    rw [hidx]
    rw [List.drop_append]

/-- A 51-snapshot run used to witness the eviction behaviour. -/
def undoRun : List (List ModelConfig) := List.replicate 51 []

/-- Witness for C3: a single push stays in bound, and 51 consecutive pushes
onto the empty stack leave exactly the last 50. -/
theorem c3_undo_stack_bounded_witness :
    (applyOps [UndoOp.push [newModel 0]] []).length ≤ MAX_UNDO ∧
    pushMany undoRun [] = undoRun.drop (undoRun.length - MAX_UNDO) :=
  ⟨c3_undo_stack_bounded.1 [UndoOp.push [newModel 0]],
   c3_undo_stack_bounded.2 [] undoRun (by decide) (by decide)⟩

open JVal in
/-- C2: a top-level field of the raw record outside the normalized schema is
returned by `mergeToRaw` with exactly the value the raw record had for it,
whatever the edits. -/
theorem c2_unknown_field_preserved (ro : List (String × JVal)) (e : ModelConfig)
    (f : String) (v : JVal) (hf : f ∉ knownKeys) (hv : getK ro f = some v) :
    jget (mergeToRaw (some (JVal.obj ro)) e) f = some v := by
  simp only [knownKeys, List.mem_cons, List.not_mem_nil, or_false, not_or] at hf
  obtain ⟨h1, h2, h3, h4, h5, h6, h7, h8, h9, h10, h11, h12, h13, h14⟩ := hf
  simp only [mergeToRaw, jsFalsy, Bool.false_eq_true, if_false, jSpreadV]
  simp only [jget]
  rw [getK_setKey_ne _ _ h14, getK_setKey_ne _ _ h13, getK_setKey_ne _ _ h12,
    getK_setKey_ne _ _ h11]
  split
  · rw [getK_setKey_ne _ _ h9, getK_setKey_ne _ _ h8, getK_setKey_ne _ _ h7,
      getK_setKey_ne _ _ h6, getK_setKey_ne _ _ h5, getK_setKey_ne _ _ h4,
      getK_setKey_ne _ _ h3, getK_setKey_ne _ _ h2, getK_setKey_ne _ _ h1, hv]
  · rw [getK_setKey_ne _ _ h10, getK_setKey_ne _ _ h9, getK_setKey_ne _ _ h8,
      getK_setKey_ne _ _ h7, getK_setKey_ne _ _ h6, getK_setKey_ne _ _ h5,
      getK_setKey_ne _ _ h4, getK_setKey_ne _ _ h3, getK_setKey_ne _ _ h2,
      getK_setKey_ne _ _ h1, hv]

open JVal in
/-- Witness for C2: the unknown field `foo` of a concrete raw record
survives a merge with a fresh edited record. -/
theorem c2_unknown_field_preserved_witness :
    jget (mergeToRaw (some (JVal.obj [("id", JVal.str "a"), ("foo", JVal.num 9)]))
        (newModel 0)) "foo" = some (JVal.num 9) :=
  c2_unknown_field_preserved [("id", JVal.str "a"), ("foo", JVal.num 9)]
    (newModel 0) "foo" (JVal.num 9) (by decide) (by decide)

open JVal in
/-- Whether an object's values are all booleans (a "boolean-flag map"). -/
def isBoolFlagMap : JVal → Bool
  | .obj o => o.all fun kv => match kv.2 with | .bool _ => true | _ => false
  | _ => false

open JVal in
/-- Membership in the default set named by the specification: empty string,
empty list, `null`, `false`, or a boolean-flag map. -/
def specDefault (v : JVal) : Bool :=
  v == .str "" || v == .arr [] || v == .null || v == .bool false || isBoolFlagMap v

/-- Counterexample to C6: `owned_by` is absent from the empty input record,
yet `normalizeModel` defaults it to `"openai"`, which is none of the claimed
defaults (empty string, empty list, null, false/boolean-flag map). -/
theorem c6_counterexample :
    JVal.jget (JVal.obj []) "owned_by" = none ∧
    (normalizeModel 7 (JVal.obj [])).owned_by = JVal.str "openai" ∧
    specDefault (normalizeModel 7 (JVal.obj [])).owned_by = false := by decide

open JVal in
/-- C6 (amended): `normalizeModel` is total on arbitrary JSON input, and
every known field absent from the input gets the explicit default of the
source: `""` for `id`/`user_id`, the record's `id` (else `"Unknown"`) for
`name`, `"openai"` for `owned_by`, `{id}` for `openai`, `0` for `urlIdx`,
`"external"` for `connection_type`, `null` for `base_model_id`,
`access_control`, `meta.description` and `meta.suggestion_prompts`, `{}` for
`params` and `meta.capabilities`, `""` for `meta.profile_image_url`, `[]`
for `meta.tags`, `true` for `is_active`, and the current clock second for
`updated_at`/`created_at`. -/
theorem c6_defaults (now : Int) (m : JVal) :
    (jget m "id" = none → (normalizeModel now m).id = .str "") ∧
    (jget m "name" = none →
       (normalizeModel now m).name = jqq (jget m "id") (.str "Unknown")) ∧
    (jget m "owned_by" = none → (normalizeModel now m).owned_by = .str "openai") ∧
    (jget m "openai" = none →
       (normalizeModel now m).openai = .obj [("id", jqq (jget m "id") (.str ""))]) ∧
    (jget m "urlIdx" = none → (normalizeModel now m).urlIdx = .num 0) ∧
    (jget m "connection_type" = none →
       (normalizeModel now m).connection_type = .str "external") ∧
    (jget m "user_id" = none → (normalizeModel now m).user_id = .str "") ∧
    (jget m "base_model_id" = none → (normalizeModel now m).base_model_id = .null) ∧
    (jget m "params" = none → (normalizeModel now m).params = .obj []) ∧
    (jget m "access_control" = none → (normalizeModel now m).access_control = .null) ∧
    (jget m "is_active" = none → (normalizeModel now m).is_active = .bool true) ∧
    (jget m "updated_at" = none → (normalizeModel now m).updated_at = .num now) ∧
    (jget m "created_at" = none → (normalizeModel now m).created_at = .num now) ∧
    (jgetChain m "meta" "profile_image_url" = none →
       (normalizeModel now m).meta.profile_image_url = .str "") ∧
    (jgetChain m "meta" "description" = none →
       (normalizeModel now m).meta.description = .null) ∧
    (jgetChain m "meta" "capabilities" = none →
       (normalizeModel now m).meta.capabilities = .obj []) ∧
    (jgetChain m "meta" "suggestion_prompts" = none →
       (normalizeModel now m).meta.suggestion_prompts = .null) ∧
    (jgetChain m "meta" "tags" = none →
       (normalizeModel now m).meta.tags = .arr []) := by
  refine ⟨?_, ?_, ?_, ?_, ?_, ?_, ?_, ?_, ?_, ?_, ?_, ?_, ?_, ?_, ?_, ?_, ?_, ?_⟩ <;>
    (intro h; simp [normalizeModel, h, jqq, nls])

/-- Witness for C6 at the empty record. -/
theorem c6_defaults_witness :
    (normalizeModel 5 (JVal.obj [])).owned_by = JVal.str "openai" ∧
    (normalizeModel 5 (JVal.obj [])).created_at = JVal.num 5 :=
  ⟨(c6_defaults 5 (JVal.obj [])).2.2.1 rfl,
   (c6_defaults 5 (JVal.obj [])).2.2.2.2.2.2.2.2.2.2.2.2.1 rfl⟩

/-- Counterexample to C10: a record in which both `created_at` and
`updated_at` are present (the former with value `null`) on which
`normalizeModel` still depends on the clock, because `??` also fires on
`null`. -/
theorem c10_counterexample :
    (JVal.jget (JVal.obj [("created_at", JVal.null), ("updated_at", JVal.num 1)])
        "created_at").isSome = true ∧
    (JVal.jget (JVal.obj [("created_at", JVal.null), ("updated_at", JVal.num 1)])
        "updated_at").isSome = true ∧
    normalizeModel 0 (JVal.obj [("created_at", JVal.null), ("updated_at", JVal.num 1)]) ≠
      normalizeModel 1 (JVal.obj [("created_at", JVal.null), ("updated_at", JVal.num 1)]) := by
  decide

open JVal in
/-- C10 (amended): `normalizeModel` is a pure function of its input whenever
both timestamps are present with non-null values, and whenever either
timestamp is absent its output depends on the clock argument. -/
theorem c10_determinism (m : JVal) :
    (∀ n1 n2 : Int, nls (jget m "created_at") ≠ none → nls (jget m "updated_at") ≠ none →
       normalizeModel n1 m = normalizeModel n2 m) ∧
    ((jget m "created_at" = none ∨ jget m "updated_at" = none) →
       normalizeModel 0 m ≠ normalizeModel 1 m) := by
  constructor
  · intro n1 n2 hc hu
    obtain ⟨vc, hvc⟩ := Option.ne_none_iff_exists'.mp hc
    obtain ⟨vu, hvu⟩ := Option.ne_none_iff_exists'.mp hu
    have e1 : ∀ n : Int, jqq (jget m "created_at") (.num n) = vc := fun n => by
      simp [jqq, hvc]
    have e2 : ∀ n : Int, jqq (jget m "updated_at") (.num n) = vu := fun n => by
      simp [jqq, hvu]
    simp [normalizeModel, e1, e2]
  · intro h heq
    rcases h with h | h
    · have := congrArg ModelConfig.created_at heq
      simp [normalizeModel, h, jqq, nls] at this
    · have := congrArg ModelConfig.updated_at heq
      simp [normalizeModel, h, jqq, nls] at this

/-- Witness for C10: determinism on a record with both timestamps, clock
dependence on the empty record. -/
theorem c10_determinism_witness :
    normalizeModel 0 (JVal.obj [("created_at", JVal.num 3), ("updated_at", JVal.num 4)]) =
      normalizeModel 1 (JVal.obj [("created_at", JVal.num 3), ("updated_at", JVal.num 4)]) ∧
    normalizeModel 0 (JVal.obj []) ≠ normalizeModel 1 (JVal.obj []) :=
  ⟨(c10_determinism _).1 0 1 (by decide) (by decide),
   (c10_determinism _).2 (Or.inl rfl)⟩

open JVal in
/-- Counterexample to C5: the params branch is a plain spread merge, so a
field cleared in the edit (`stop: []`) lands in the output even though the
raw record's `params` had no value for it — against the claimed
"cleared overwrites only if the raw had a value". -/
theorem c5_counterexample :
    getK [] "stop" = none ∧
    jsNonEmpty (JVal.arr []) = false ∧
    jgetChain (mergeToRaw (some (JVal.obj [("params", JVal.obj [])]))
        { newModel 0 with params := JVal.obj [("stop", JVal.arr [])] })
      "params" "stop" = some (JVal.arr []) := by decide

open JVal in
/-- The five meta keys paired with the edited record's values, in the
iteration order of the merge loop. -/
def metaPairs (m : MetaCfg) : List (String × JVal) :=
  [("profile_image_url", m.profile_image_url), ("description", m.description),
   ("capabilities", m.capabilities), ("suggestion_prompts", m.suggestion_prompts),
   ("tags", m.tags)]

namespace JVal

theorem getK_eq_none_of_not_mem {a : List (String × JVal)} {f : String}
    (h : f ∉ a.map Prod.fst) : getK a f = none := by
  induction a with
  | nil => rfl
  | cons kv rest ih =>
      simp only [List.map_cons, List.mem_cons, not_or] at h
      simp [getK, h.1, ih h.2]

theorem getK_reverse_of_nodup {b : List (String × JVal)} (f : String)
    (nd : (b.map Prod.fst).Nodup) : getK b.reverse f = getK b f := by
  induction b with
  | nil => rfl
  | cons kv rest ih =>
      simp only [List.map_cons, List.nodup_cons] at nd
      rw [List.reverse_cons, getK_append, ih nd.2]
      by_cases h : f = kv.1
      · subst h
        rw [getK_eq_none_of_not_mem nd.1]
        simp [getK]
      · simp [getK, h]

theorem getK_mergeMetaStep_ne (rm : Option JVal) (acc : List (String × JVal))
    (mk : String) (ev : JVal) {f : String} (h : f ≠ mk) :
    getK (mergeMetaStep rm acc mk ev) f = getK acc f := by
  unfold mergeMetaStep
  split
  · exact getK_setKey_ne _ _ h
  · split
    · exact getK_setKey_ne _ _ h
    · rfl

theorem getK_mergeMetaStep_self (rm : Option JVal) (acc : List (String × JVal))
    (mk : String) (ev : JVal) :
    getK (mergeMetaStep rm acc mk ev) mk =
      if jsNonEmpty ev || rawHasMeta rm mk then some ev else getK acc mk := by
  unfold mergeMetaStep
  split
  · rename_i h1
    simp [h1, getK_setKey_self]
  · rename_i h1
    split
    · rename_i h2
      simp only [Bool.not_eq_true] at h1
      simp [h1, h2, getK_setKey_self]
    · rename_i h2
      simp only [Bool.not_eq_true] at h1 h2
      simp [h1, h2]

theorem getK_mergeMeta_fields (rm : Option JVal) (em : MetaCfg) :
    (getK (mergeMeta rm em) "profile_image_url" =
       if jsNonEmpty em.profile_image_url || rawHasMeta rm "profile_image_url" then
         some em.profile_image_url
       else getK (jSpreadO rm) "profile_image_url") ∧
    (getK (mergeMeta rm em) "description" =
       if jsNonEmpty em.description || rawHasMeta rm "description" then
         some em.description
       else getK (jSpreadO rm) "description") ∧
    (getK (mergeMeta rm em) "capabilities" =
       if jsNonEmpty em.capabilities || rawHasMeta rm "capabilities" then
         some em.capabilities
       else getK (jSpreadO rm) "capabilities") ∧
    (getK (mergeMeta rm em) "suggestion_prompts" =
       if jsNonEmpty em.suggestion_prompts || rawHasMeta rm "suggestion_prompts" then
         some em.suggestion_prompts
       else getK (jSpreadO rm) "suggestion_prompts") ∧
    (getK (mergeMeta rm em) "tags" =
       if jsNonEmpty em.tags || rawHasMeta rm "tags" then some em.tags
       else getK (jSpreadO rm) "tags") := by
  unfold mergeMeta
  refine ⟨?_, ?_, ?_, ?_, ?_⟩
  · rw [getK_mergeMetaStep_ne _ _ _ _ (by decide), getK_mergeMetaStep_ne _ _ _ _ (by decide),
      getK_mergeMetaStep_ne _ _ _ _ (by decide), getK_mergeMetaStep_ne _ _ _ _ (by decide),
      getK_mergeMetaStep_self]
  · rw [getK_mergeMetaStep_ne _ _ _ _ (by decide), getK_mergeMetaStep_ne _ _ _ _ (by decide),
      getK_mergeMetaStep_ne _ _ _ _ (by decide), getK_mergeMetaStep_self,
      getK_mergeMetaStep_ne _ _ _ _ (by decide)]
  · rw [getK_mergeMetaStep_ne _ _ _ _ (by decide), getK_mergeMetaStep_ne _ _ _ _ (by decide),
      getK_mergeMetaStep_self, getK_mergeMetaStep_ne _ _ _ _ (by decide),
      getK_mergeMetaStep_ne _ _ _ _ (by decide)]
  · rw [getK_mergeMetaStep_ne _ _ _ _ (by decide), getK_mergeMetaStep_self,
      getK_mergeMetaStep_ne _ _ _ _ (by decide), getK_mergeMetaStep_ne _ _ _ _ (by decide),
      getK_mergeMetaStep_ne _ _ _ _ (by decide)]
  · rw [getK_mergeMetaStep_self, getK_mergeMetaStep_ne _ _ _ _ (by decide),
      getK_mergeMetaStep_ne _ _ _ _ (by decide), getK_mergeMetaStep_ne _ _ _ _ (by decide),
      getK_mergeMetaStep_ne _ _ _ _ (by decide)]

end JVal

namespace JVal

theorem jget_mergeToRaw_openai (ro : List (String × JVal)) (e : ModelConfig) :
    jget (mergeToRaw (some (.obj ro)) e) "openai" =
      some (.obj (mergeObj (jSpreadO (getK ro "openai")) (jSpreadV e.openai))) := by
  simp only [mergeToRaw, jsFalsy, Bool.false_eq_true, if_false, jSpreadV]
  simp only [jget]
  rw [getK_setKey_ne _ _ (by decide), getK_setKey_ne _ _ (by decide),
    getK_setKey_ne _ _ (by decide), getK_setKey_ne _ _ (by decide)]
  split
  · rw [getK_setKey_ne _ _ (by decide), getK_setKey_ne _ _ (by decide),
      getK_setKey_ne _ _ (by decide), getK_setKey_ne _ _ (by decide),
      getK_setKey_ne _ _ (by decide), getK_setKey_self]
  · rw [getK_setKey_ne _ _ (by decide), getK_setKey_ne _ _ (by decide),
      getK_setKey_ne _ _ (by decide), getK_setKey_ne _ _ (by decide),
      getK_setKey_ne _ _ (by decide), getK_setKey_ne _ _ (by decide), getK_setKey_self]

theorem jget_mergeToRaw_params (ro : List (String × JVal)) (e : ModelConfig) :
    jget (mergeToRaw (some (.obj ro)) e) "params" =
      some (.obj (mergeParams (getK ro "params") e.params)) := by
  simp only [mergeToRaw, jsFalsy, Bool.false_eq_true, if_false, jSpreadV]
  simp only [jget]
  rw [getK_setKey_ne _ _ (by decide), getK_setKey_ne _ _ (by decide),
    getK_setKey_ne _ _ (by decide), getK_setKey_ne _ _ (by decide)]
  split
  · rw [getK_setKey_self]
  · rw [getK_setKey_ne _ _ (by decide), getK_setKey_self]

theorem jget_mergeToRaw_meta_skip (ro : List (String × JVal)) (e : ModelConfig)
    (h : metaSkip (getK ro "meta") e.meta = true) :
    jget (mergeToRaw (some (.obj ro)) e) "meta" = getK ro "meta" := by
  simp only [mergeToRaw, jsFalsy, Bool.false_eq_true, if_false, jSpreadV]
  simp only [jget]
  rw [getK_setKey_ne _ _ (by decide), getK_setKey_ne _ _ (by decide),
    getK_setKey_ne _ _ (by decide), getK_setKey_ne _ _ (by decide), if_pos h,
    getK_setKey_ne _ _ (by decide), getK_setKey_ne _ _ (by decide),
    getK_setKey_ne _ _ (by decide), getK_setKey_ne _ _ (by decide),
    getK_setKey_ne _ _ (by decide), getK_setKey_ne _ _ (by decide),
    getK_setKey_ne _ _ (by decide), getK_setKey_ne _ _ (by decide),
    getK_setKey_ne _ _ (by decide)]

theorem jget_mergeToRaw_meta (ro : List (String × JVal)) (e : ModelConfig)
    (h : metaSkip (getK ro "meta") e.meta = false) :
    jget (mergeToRaw (some (.obj ro)) e) "meta" =
      some (.obj (mergeMeta (getK ro "meta") e.meta)) := by
  simp only [mergeToRaw, jsFalsy, Bool.false_eq_true, if_false, jSpreadV]
  simp only [jget]
  rw [getK_setKey_ne _ _ (by decide), getK_setKey_ne _ _ (by decide),
    getK_setKey_ne _ _ (by decide), getK_setKey_ne _ _ (by decide),
    if_neg (by simp [h]), getK_setKey_self]

end JVal

open JVal in
/-- C5 (amended): for a raw object record, `mergeToRaw` treats the three
nested objects as follows.  `openai` is a plain shallow merge in which a
field present in the edit overwrites unconditionally — cleared or not — and
a field absent from the edit keeps the raw value.  `params` behaves the same
way, except that an absent raw `params` together with an empty edited
`params` yields an empty object.  Only `meta` follows the selective rule:
a non-empty edited field overwrites, a cleared edited field (empty string,
empty array, empty object, or null) overwrites exactly when the raw `meta`
had the key, and otherwise the copied raw value is left in place; when the
raw record has no `meta` and the edited meta is all-empty, the output keeps
no `meta` key at all. -/
theorem c5_nested_merge_semantics (ro : List (String × JVal)) (e : ModelConfig)
    (hnd1 : ((jSpreadV e.openai).map Prod.fst).Nodup)
    (hnd2 : ((jSpreadV e.params).map Prod.fst).Nodup) :
    (∀ f, jgetChain (mergeToRaw (some (.obj ro)) e) "openai" f =
       (getK (jSpreadV e.openai) f).or (getK (jSpreadO (getK ro "openai")) f)) ∧
    (getK ro "params" = none → jsKeysLen e.params = 0 →
       ∀ f, jgetChain (mergeToRaw (some (.obj ro)) e) "params" f = none) ∧
    (¬(getK ro "params" = none ∧ jsKeysLen e.params = 0) →
       ∀ f, jgetChain (mergeToRaw (some (.obj ro)) e) "params" f =
         (getK (jSpreadV e.params) f).or (getK (jSpreadO (getK ro "params")) f)) ∧
    (metaSkip (getK ro "meta") e.meta = true →
       jget (mergeToRaw (some (.obj ro)) e) "meta" = getK ro "meta") ∧
    (metaSkip (getK ro "meta") e.meta = false →
       ∀ p ∈ metaPairs e.meta,
         (jsNonEmpty p.2 = true →
            jgetChain (mergeToRaw (some (.obj ro)) e) "meta" p.1 = some p.2) ∧
         (jsNonEmpty p.2 = false → rawHasMeta (getK ro "meta") p.1 = true →
            jgetChain (mergeToRaw (some (.obj ro)) e) "meta" p.1 = some p.2) ∧
         (jsNonEmpty p.2 = false → rawHasMeta (getK ro "meta") p.1 = false →
            jgetChain (mergeToRaw (some (.obj ro)) e) "meta" p.1 =
              getK (jSpreadO (getK ro "meta")) p.1)) := by
  refine ⟨?_, ?_, ?_, ?_, ?_⟩
  · intro f
    rw [jgetChain, jget_mergeToRaw_openai]
    simp only [nls]
    rw [jget, getK_mergeObj, getK_reverse_of_nodup f hnd1]
  · intro hp1 hp2 f
    rw [jgetChain, jget_mergeToRaw_params]
    have hm : mergeParams (getK ro "params") e.params = [] := by
      simp [mergeParams, hp1, hp2]
    rw [hm]
    simp [nls, jget, getK]
  · intro hp f
    rw [jgetChain, jget_mergeToRaw_params]
    have hm : mergeParams (getK ro "params") e.params =
        mergeObj (jSpreadO (getK ro "params")) (jSpreadV e.params) := by
      rw [mergeParams, if_neg]
      simp only [Bool.and_eq_true, Option.isNone_iff_eq_none, beq_iff_eq, not_and]
      intro h1 h2
      exact hp ⟨h1, by simpa using h2⟩
    rw [hm]
    simp only [nls]
    rw [jget, getK_mergeObj, getK_reverse_of_nodup f hnd2]
  · intro h
    exact jget_mergeToRaw_meta_skip ro e h
  · intro h p hp
    have hfields := getK_mergeMeta_fields (getK ro "meta") e.meta
    simp only [metaPairs, List.mem_cons, List.not_mem_nil, or_false] at hp
    rcases hp with hp | hp | hp | hp | hp <;> subst hp <;>
      refine ⟨?_, ?_, ?_⟩ <;> intro h1 <;>
      [skip; intro h2; intro h2; skip; intro h2; intro h2; skip; intro h2; intro h2;
       skip; intro h2; intro h2; skip; intro h2; intro h2] <;>
      rw [jgetChain, jget_mergeToRaw_meta ro e h] <;> simp only [nls] <;> rw [jget] <;>
      simp_all [hfields.1, hfields.2.1, hfields.2.2.1, hfields.2.2.2.1, hfields.2.2.2.2]

open JVal in
/-- Witness for C5 on a concrete raw record and edit: the edited `openai`
field `base_url` is absent, so the raw value survives the spread merge. -/
theorem c5_nested_merge_semantics_witness :
    jgetChain (mergeToRaw
        (some (JVal.obj [("openai", JVal.obj [("base_url", JVal.str "u")]),
                         ("params", JVal.obj [("temperature", JVal.num 1)])]))
        { newModel 0 with openai := JVal.obj [("x", JVal.num 2)] })
      "openai" "base_url" = some (JVal.str "u") :=
  ((c5_nested_merge_semantics
      [("openai", JVal.obj [("base_url", JVal.str "u")]),
       ("params", JVal.obj [("temperature", JVal.num 1)])]
      { newModel 0 with openai := JVal.obj [("x", JVal.num 2)] }
      (by decide) (by decide)).1 "base_url").trans (by decide)

open JVal in
/-- Whether an optional value is an object with pairwise-distinct keys. -/
def objNodupB : Option JVal → Bool
  | some (.obj oo) => decide (oo.map Prod.fst).Nodup
  | _ => false

open JVal in
/-- Whether a raw record's `meta` slot is absent, or an object with distinct
keys whose `profile_image_url`, `capabilities` and `tags` values — the three
whose normalization default differs from `null` — are not `null`. -/
def metaOkB : Option JVal → Bool
  | none => true
  | some (.obj mo) => decide (mo.map Prod.fst).Nodup &&
      !(getK mo "profile_image_url" == some .null) &&
      !(getK mo "capabilities" == some .null) &&
      !(getK mo "tags" == some .null)
  | some _ => false

/-- The top-level keys whose normalization default differs from `null`, so
that round-tripping needs a present, non-null raw value. -/
def scalarRawKeys : List String :=
  ["id", "name", "owned_by", "urlIdx", "connection_type", "user_id",
   "is_active", "updated_at", "created_at"]

open JVal in
/-- A raw record of the normalized shape: only known keys, no duplicates,
every non-`meta` known key present, the nine keys of `scalarRawKeys`
non-null, `openai` and `params` plain objects, and `meta` absent or
well-shaped in the sense of `metaOkB`. -/
def WellFormedRaw (ro : List (String × JVal)) : Prop :=
  (∀ kv ∈ ro, kv.1 ∈ knownKeys) ∧
  (ro.map Prod.fst).Nodup ∧
  (∀ k ∈ scalarRawKeys, (getK ro k).isSome ∧ getK ro k ≠ some .null) ∧
  (getK ro "base_model_id").isSome ∧
  (getK ro "access_control").isSome ∧
  objNodupB (getK ro "openai") = true ∧
  objNodupB (getK ro "params") = true ∧
  metaOkB (getK ro "meta") = true

namespace JVal

theorem exists_nonnull {o : Option JVal} (h1 : o.isSome) (h2 : o ≠ some .null) :
    ∃ v, o = some v ∧ v ≠ .null := by
  rcases Option.isSome_iff_exists.mp h1 with ⟨v, hv⟩
  refine ⟨v, hv, ?_⟩
  rintro rfl
  exact h2 hv

theorem objNodupB_elim : ∀ {o : Option JVal}, objNodupB o = true →
    ∃ oo, o = some (.obj oo) ∧ (oo.map Prod.fst).Nodup
  | none, h => by simp [objNodupB] at h
  | some .null, h => by simp [objNodupB] at h
  | some (.bool b), h => by simp [objNodupB] at h
  | some (.num n), h => by simp [objNodupB] at h
  | some (.str s), h => by simp [objNodupB] at h
  | some (.arr xs), h => by simp [objNodupB] at h
  | some (.obj oo), h => ⟨oo, rfl, by simpa [objNodupB] using h⟩

theorem metaOkB_elim : ∀ {o : Option JVal}, metaOkB o = true →
    o = none ∨ ∃ mo, o = some (.obj mo) ∧ (mo.map Prod.fst).Nodup ∧
      getK mo "profile_image_url" ≠ some .null ∧
      getK mo "capabilities" ≠ some .null ∧
      getK mo "tags" ≠ some .null
  | none, _ => Or.inl rfl
  | some .null, h => by simp [metaOkB] at h
  | some (.bool b), h => by simp [metaOkB] at h
  | some (.num n), h => by simp [metaOkB] at h
  | some (.str s), h => by simp [metaOkB] at h
  | some (.arr xs), h => by simp [metaOkB] at h
  | some (.obj mo), h => by
      right
      refine ⟨mo, rfl, ?_⟩
      have h' := h
      simp [metaOkB] at h'
      exact ⟨h'.1.1.1, h'.1.1.2, h'.1.2, h'.2⟩

theorem mergeMetaStep_preserve {mo : List (String × JVal)} {mk : String} {ev : JVal}
    (h : ∀ v, getK mo mk = some v → ev = v)
    (habs : getK mo mk = none → jsNonEmpty ev = false) :
    mergeMetaStep (some (.obj mo)) mo mk ev = mo := by
  unfold mergeMetaStep
  cases hg : getK mo mk with
  | none =>
      have hne := habs hg
      have hraw : rawHasMeta (some (.obj mo)) mk = false := by
        simp [rawHasMeta, nls, jget, hg]
      simp [hne, hraw]
  | some v =>
      have hev : ev = v := h v hg
      subst hev
      have hraw : rawHasMeta (some (.obj mo)) mk = true := by
        simp [rawHasMeta, nls, jget, hg]
      by_cases hne : jsNonEmpty ev = true
      · simp [hne, setKey_eq_self hg]
      · simp only [Bool.not_eq_true] at hne
        simp [hne, hraw, setKey_eq_self hg]

end JVal

/-- Counterexample to C1: the raw record `{"id": "a"}` contains only fields
known to the normalized schema, yet merging its own normalization back onto
it adds the defaulted keys (`name`, `owned_by`, ...), so the round trip does
not return the record. -/
theorem c1_counterexample :
    (∀ kv ∈ [("id", JVal.str "a")], kv.1 ∈ knownKeys) ∧
    mergeToRaw (some (JVal.obj [("id", JVal.str "a")]))
        (normalizeModel 0 (JVal.obj [("id", JVal.str "a")])) ≠
      JVal.obj [("id", JVal.str "a")] := by decide

open JVal in
/-- C1 (amended): the round trip `mergeToRaw (raw, normalizeModel raw) = raw`
holds for every raw record of the normalized shape: only known keys, no
duplicates, all non-`meta` known keys present with non-null values where the
schema's default is non-null, `openai` and `params` plain objects, and
`meta` absent or an object whose `profile_image_url`, `capabilities` and
`tags` are non-null when present. -/
theorem c1_roundtrip (now : Int) (ro : List (String × JVal))
    (h : WellFormedRaw ro) :
    mergeToRaw (some (JVal.obj ro)) (normalizeModel now (JVal.obj ro)) = JVal.obj ro := by
  obtain ⟨hknown, hnd, hscalar, hbmi, hac, hop, hpa, hme⟩ := h
  obtain ⟨vid, hvid, hvidn⟩ :=
    exists_nonnull (hscalar "id" (by decide)).1 (hscalar "id" (by decide)).2
  obtain ⟨vname, hvname, hvnamen⟩ :=
    exists_nonnull (hscalar "name" (by decide)).1 (hscalar "name" (by decide)).2
  obtain ⟨vob, hvob, hvobn⟩ :=
    exists_nonnull (hscalar "owned_by" (by decide)).1 (hscalar "owned_by" (by decide)).2
  obtain ⟨vu, hvu, hvun⟩ :=
    exists_nonnull (hscalar "urlIdx" (by decide)).1 (hscalar "urlIdx" (by decide)).2
  obtain ⟨vct, hvct, hvctn⟩ :=
    exists_nonnull (hscalar "connection_type" (by decide)).1
      (hscalar "connection_type" (by decide)).2
  obtain ⟨vui, hvui, hvuin⟩ :=
    exists_nonnull (hscalar "user_id" (by decide)).1 (hscalar "user_id" (by decide)).2
  obtain ⟨via, hvia, hvian⟩ :=
    exists_nonnull (hscalar "is_active" (by decide)).1 (hscalar "is_active" (by decide)).2
  obtain ⟨vup, hvup, hvupn⟩ :=
    exists_nonnull (hscalar "updated_at" (by decide)).1 (hscalar "updated_at" (by decide)).2
  obtain ⟨vcr, hvcr, hvcrn⟩ :=
    exists_nonnull (hscalar "created_at" (by decide)).1 (hscalar "created_at" (by decide)).2
  obtain ⟨vbm, hvbm⟩ := Option.isSome_iff_exists.mp hbmi
  obtain ⟨vac, hvac⟩ := Option.isSome_iff_exists.mp hac
  obtain ⟨oo, hoo, hndoo⟩ := objNodupB_elim hop
  obtain ⟨po, hpo, hndpo⟩ := objNodupB_elim hpa
  set E := normalizeModel now (JVal.obj ro) with hE
  have eid : E.id = vid := by
    rw [hE]; simp only [normalizeModel, jget]; rw [hvid, jqq_some_ne_null hvidn]
  have ename : E.name = vname := by
    rw [hE]; simp only [normalizeModel, jget]; rw [hvname, jqq_some_ne_null hvnamen]
  have eob : E.owned_by = vob := by
    rw [hE]; simp only [normalizeModel, jget]; rw [hvob, jqq_some_ne_null hvobn]
  have eu : E.urlIdx = vu := by
    rw [hE]; simp only [normalizeModel, jget]; rw [hvu, jqq_some_ne_null hvun]
  have ect : E.connection_type = vct := by
    rw [hE]; simp only [normalizeModel, jget]; rw [hvct, jqq_some_ne_null hvctn]
  have eui : E.user_id = vui := by
    rw [hE]; simp only [normalizeModel, jget]; rw [hvui, jqq_some_ne_null hvuin]
  have eia : E.is_active = via := by
    rw [hE]; simp only [normalizeModel, jget]; rw [hvia, jqq_some_ne_null hvian]
  have eup : E.updated_at = vup := by
    rw [hE]; simp only [normalizeModel, jget]; rw [hvup, jqq_some_ne_null hvupn]
  have ecr : E.created_at = vcr := by
    rw [hE]; simp only [normalizeModel, jget]; rw [hvcr, jqq_some_ne_null hvcrn]
  have ebm : E.base_model_id = vbm := by
    rw [hE]; simp only [normalizeModel, jget]; rw [hvbm, jqq_some_null_default]
  have eac : E.access_control = vac := by
    rw [hE]; simp only [normalizeModel, jget]; rw [hvac, jqq_some_null_default]
  have eop : E.openai = .obj oo := by
    rw [hE]; simp only [normalizeModel, jget]; rw [hoo, jqq_some_ne_null (by simp)]
  have epa : E.params = .obj po := by
    rw [hE]; simp only [normalizeModel, jget]; rw [hpo, jqq_some_ne_null (by simp)]
  have hmergeop : mergeObj (jSpreadO (getK ro "openai")) (jSpreadV E.openai) = oo := by
    rw [hoo, eop]
    simp only [jSpreadO, jSpreadV]
    exact mergeObj_self hndoo
  have hmergepa : mergeParams (getK ro "params") E.params = po := by
    rw [hpo, epa]
    simp [mergeParams, jSpreadO, jSpreadV, mergeObj_self hndpo]
  simp only [mergeToRaw, jsFalsy, Bool.false_eq_true, if_false, jget]
  simp only [show jSpreadV (JVal.obj ro) = ro from rfl]
  rw [eid, setKey_eq_self hvid, ename, setKey_eq_self hvname, eob, setKey_eq_self hvob,
    hmergeop, setKey_eq_self hoo, eu, setKey_eq_self hvu, ect, setKey_eq_self hvct,
    eui, setKey_eq_self hvui, ebm, setKey_eq_self hvbm, hmergepa, setKey_eq_self hpo]
  rcases metaOkB_elim hme with hgm | ⟨mo, hgm, hndmo, hmp, hmc, hmt⟩
  · have em1 : E.meta.profile_image_url = .str "" := by
      rw [hE]; simp [normalizeModel, jgetChain, jget, hgm, nls, jqq]
    have em2 : E.meta.description = .null := by
      rw [hE]; simp [normalizeModel, jgetChain, jget, hgm, nls, jqq]
    have em3 : E.meta.capabilities = .obj [] := by
      rw [hE]; simp [normalizeModel, jgetChain, jget, hgm, nls, jqq]
    have em5 : E.meta.tags = .arr [] := by
      rw [hE]; simp [normalizeModel, jgetChain, jget, hgm, nls, jqq]
    have hskip : metaSkip (getK ro "meta") E.meta = true := by
      simp [metaSkip, hgm, em1, em2, em3, em5, jsFalsy, jsKeysLen, jsLenIsZero]
      all_goals decide
    rw [if_pos hskip, eac, setKey_eq_self hvac, eia, setKey_eq_self hvia,
      eup, setKey_eq_self hvup, ecr, setKey_eq_self hvcr]
  · have hskip : metaSkip (getK ro "meta") E.meta = false := by
      simp [metaSkip, hgm]
    have emk : ∀ k, jgetChain (JVal.obj ro) "meta" k = getK mo k := by
      intro k; simp [jgetChain, jget, hgm, nls]
    have em1 : E.meta.profile_image_url = jqq (getK mo "profile_image_url") (.str "") := by
      rw [hE]; simp only [normalizeModel]; rw [emk]
    have em2 : E.meta.description = jqq (getK mo "description") .null := by
      rw [hE]; simp only [normalizeModel]; rw [emk]
    have em3 : E.meta.capabilities = jqq (getK mo "capabilities") (.obj []) := by
      rw [hE]; simp only [normalizeModel]; rw [emk]
    have em4 : E.meta.suggestion_prompts = jqq (getK mo "suggestion_prompts") .null := by
      rw [hE]; simp only [normalizeModel]; rw [emk]
    have em5 : E.meta.tags = jqq (getK mo "tags") (.arr []) := by
      rw [hE]; simp only [normalizeModel]; rw [emk]
    have t1 : mergeMetaStep (some (.obj mo)) mo "profile_image_url"
        E.meta.profile_image_url = mo := by
      apply mergeMetaStep_preserve
      · intro v hv
        rw [em1, hv]
        refine jqq_some_ne_null ?_ _
        rintro rfl
        exact hmp hv
      · intro hnone
        rw [em1, hnone]
        rfl
    have t2 : mergeMetaStep (some (.obj mo)) mo "description" E.meta.description = mo := by
      apply mergeMetaStep_preserve
      · intro v hv
        rw [em2, hv, jqq_some_null_default]
      · intro hnone
        rw [em2, hnone]
        rfl
    have t3 : mergeMetaStep (some (.obj mo)) mo "capabilities" E.meta.capabilities = mo := by
      apply mergeMetaStep_preserve
      · intro v hv
        rw [em3, hv]
        refine jqq_some_ne_null ?_ _
        rintro rfl
        exact hmc hv
      · intro hnone
        rw [em3, hnone]
        rfl
    have t4 : mergeMetaStep (some (.obj mo)) mo "suggestion_prompts"
        E.meta.suggestion_prompts = mo := by
      apply mergeMetaStep_preserve
      · intro v hv
        rw [em4, hv, jqq_some_null_default]
      · intro hnone
        rw [em4, hnone]
        rfl
    have t5 : mergeMetaStep (some (.obj mo)) mo "tags" E.meta.tags = mo := by
      apply mergeMetaStep_preserve
      · intro v hv
        rw [em5, hv]
        refine jqq_some_ne_null ?_ _
        rintro rfl
        exact hmt hv
      · intro hnone
        rw [em5, hnone]
        rfl
    have hmm : mergeMeta (getK ro "meta") E.meta = mo := by
      rw [hgm]
      unfold mergeMeta
      simp only [jSpreadO, jSpreadV]
      rw [t1, t2, t3, t4, t5]
    rw [if_neg (by simp [hskip]), hmm, setKey_eq_self hgm, eac, setKey_eq_self hvac,
      eia, setKey_eq_self hvia, eup, setKey_eq_self hvup, ecr, setKey_eq_self hvcr]

open JVal in
/-- A concrete raw record of the normalized shape. -/
def rawRecordW : List (String × JVal) :=
  [("id", .str "a"), ("name", .str "n"), ("owned_by", .str "o"),
   ("openai", .obj [("id", .str "a")]), ("urlIdx", .num 3),
   ("connection_type", .str "external"), ("user_id", .str ""),
   ("base_model_id", .null), ("params", .obj [("x", .num 1)]),
   ("meta", .obj [("tags", .arr [.str "t"]), ("note", .num 9)]),
   ("access_control", .null), ("is_active", .bool true),
   ("updated_at", .num 1), ("created_at", .num 2)]

/-- Witness for C1 on `rawRecordW`. -/
theorem c1_roundtrip_witness :
    mergeToRaw (some (JVal.obj rawRecordW)) (normalizeModel 9 (JVal.obj rawRecordW)) =
      JVal.obj rawRecordW :=
  c1_roundtrip 9 rawRecordW (by unfold WellFormedRaw; decide)
